import Mathlib

/-!
Verification of the `mina` animation core (focustense/mina) against its
natural-language specification.

The Rust code computes over `f32`; the embedding uses `ℚ` as the exact
arithmetic the floating-point code approximates.  All structures and
functions below are translated from `src/core` (time_scale.rs, easing.rs,
timeline_helpers.rs, timeline.rs, interpolation.rs, animator.rs) and the
timeline code emitted by `macros/src/derive_animate.rs`; the one part of
the repository whose implementation is not present in the sources
(`SubTimeline::override_start_value` and the three-argument `value_at`
referenced by the generated code) is modelled from the specification and
marked as such.  Where the code is generic over an animated value type
with `Clone + Lerp` bounds, the embedding instantiates the value type at
`ℚ`, with `lerp` as the primitive-numeric implementation from
interpolation.rs.
-/

set_option linter.unusedVariables false

/-- `Repeat` from timeline.rs: looping behaviour of a timeline. -/
inductive Repeat where
  | None : Repeat
  | Times (n : Nat) : Repeat
  | Infinite : Repeat
deriving DecidableEq

/-- `TimeScale` from time_scale.rs: delay, cycle duration, repeat and reverse
configuration.  Field order matches the Rust struct; the `repeat` field is
named `rpt` because `repeat` is a reserved word in Lean. -/
structure TimeScale where
  delay : ℚ
  duration : ℚ
  rpt : Repeat
  reverse : Bool
deriving DecidableEq

/-- `TimeScale::new` from time_scale.rs: stores the four arguments with no
validation. -/
def TimeScale.new (duration delay : ℚ) (rpt : Repeat) (reverse : Bool) : TimeScale :=
  { duration := duration, delay := delay, rpt := rpt, reverse := reverse }

/-- `TimeScale::get_cycle_duration`. -/
def TimeScale.getCycleDuration (ts : TimeScale) : ℚ :=
  ts.duration

/-- `TimeScale::get_delay`. -/
def TimeScale.getDelay (ts : TimeScale) : ℚ :=
  ts.delay

/-- `TimeScaleLoopState` from time_scale.rs. -/
structure TimeScaleLoopState where
  isRepeating : Bool
  isReversing : Bool
deriving DecidableEq

/-- `TimeScalePosition` from time_scale.rs. -/
inductive TimeScalePosition where
  | NotStarted : TimeScalePosition
  | Active (normalizedTime : ℚ) (loopState : TimeScaleLoopState) : TimeScalePosition
  | Ended (normalizedTime : ℚ) : TimeScalePosition
deriving DecidableEq

/-- The `%` operator of f32 as used in `get_position`: `a - b * trunc(a / b)`.
Truncation equals the floor here because every dividend reaching the operator
is non-negative (the `time < 0.0` guard has already returned) and the claims
under verification assume a positive cycle duration. -/
def fmod (a b : ℚ) : ℚ :=
  a - b * (⌊a / b⌋ : ℚ)

/-- `TimeScale::position_ended` from time_scale.rs. -/
def TimeScale.positionEnded (ts : TimeScale) : TimeScalePosition :=
  TimeScalePosition.Ended (if ts.reverse then 0 else 1)

/-- The `match self.repeat` block of `TimeScale::get_position` (time_scale.rs
lines 110-138): either an early `position_ended` return (`none`) or the pair
`(cycle_time, is_repeating)`.  `t` is the delay-adjusted time. -/
def TimeScale.cycleTimeAndRepeat (ts : TimeScale) (t : ℚ) : Option (ℚ × Bool) :=
  match ts.rpt with
  | Repeat.None =>
    if t > ts.duration then none else some (t, false)
  | Repeat.Times times =>
    if t > ts.duration * (times + 1) then none
    else
      let quot := t / ts.duration
      let rem := fmod t ts.duration
      if rem = 0 ∧ 1 ≤ quot then some (ts.duration, decide (1 < quot))
      else some (rem, decide (1 ≤ quot))
  | Repeat.Infinite =>
    let quot := t / ts.duration
    let rem := fmod t ts.duration
    if rem = 0 ∧ 1 ≤ quot then some (ts.duration, decide (1 < quot))
    else some (rem, decide (1 ≤ quot))

/-- `TimeScale::get_position` from time_scale.rs. -/
def TimeScale.getPosition (ts : TimeScale) (time : ℚ) : TimeScalePosition :=
  let t := time - ts.delay
  if t < 0 then TimeScalePosition.NotStarted
  else
    match ts.cycleTimeAndRepeat t with
    | none => ts.positionEnded
    | some (cycleTime, isRepeating) =>
      let cycleRatio := cycleTime / ts.duration
      if ts.reverse ∧ 1/2 < cycleRatio then
        TimeScalePosition.Active ((1 - cycleRatio) * 2) ⟨isRepeating, true⟩
      else if ts.reverse then
        TimeScalePosition.Active (cycleRatio * 2) ⟨isRepeating, false⟩
      else
        TimeScalePosition.Active cycleRatio ⟨isRepeating, false⟩

/-- Control points of a `CubicBezierSegment` from easing.rs whose endpoints are
fixed at `(0, 0)` and `(1, 1)`, i.e. the arguments of `CubicBezierEasing::new`. -/
structure CubicBezierPoints where
  x1 : ℚ
  y1 : ℚ
  x2 : ℚ
  y2 : ℚ

/-- The x coordinate of the cubic Bézier curve at parameter `t`
(lyon_geom `CubicBezierSegment::x`, cubic Bernstein form), with the curve
endpoints `(0, 0)` and `(1, 1)` used by `CubicBezierEasing`. -/
def bezierX (p : CubicBezierPoints) (t : ℚ) : ℚ :=
  0 * (1 - t)^3 + p.x1 * (3 * (1 - t)^2 * t) + p.x2 * (3 * (1 - t) * t^2) + 1 * t^3

/-- The y coordinate of the cubic Bézier curve at parameter `t`
(lyon_geom `CubicBezierSegment::y`, cubic Bernstein form), with the curve
endpoints `(0, 0)` and `(1, 1)` used by `CubicBezierEasing`. -/
def bezierY (p : CubicBezierPoints) (t : ℚ) : ℚ :=
  0 * (1 - t)^3 + p.y1 * (3 * (1 - t)^2 * t) + p.y2 * (3 * (1 - t) * t^2) + 1 * t^3

/-- `Easing` from easing.rs: the named cubic-bezier variants plus `Custom`. -/
inductive Easing where
  | Linear : Easing
  | Ease : Easing
  | In : Easing
  | Out : Easing
  | InOut : Easing
  | InSine : Easing
  | OutSine : Easing
  | InOutSine : Easing
  | InQuad : Easing
  | OutQuad : Easing
  | InOutQuad : Easing
  | InCubic : Easing
  | OutCubic : Easing
  | InOutCubic : Easing
  | InQuart : Easing
  | OutQuart : Easing
  | InOutQuart : Easing
  | InQuint : Easing
  | OutQuint : Easing
  | InOutQuint : Easing
  | InExpo : Easing
  | OutExpo : Easing
  | InOutExpo : Easing
  | InCirc : Easing
  | OutCirc : Easing
  | InOutCirc : Easing
  | InBack : Easing
  | OutBack : Easing
  | InOutBack : Easing
  | Custom (f : ℚ → ℚ) : Easing

/-- `EasingFunction::calc` as implemented by `Easing` in easing.rs (named
`calcY` because `calc` is a reserved word in Lean).  `Linear` returns `x`
itself; each named variant forwards to `CubicBezierEasing::calc`, which is
`self.segment.y(x)` — the lyon_geom parametric evaluation of the curve's
y coordinate at parameter `t = x` — with the control-point constants from the
`lazy_static` table; `Custom` forwards to the wrapped function. -/
def Easing.calcY : Easing → ℚ → ℚ
  | Easing.Linear, x => x
  | Easing.Ease, x => bezierY ⟨0.25, 0.1, 0.25, 1⟩ x
  | Easing.In, x => bezierY ⟨0.42, 0, 1, 1⟩ x
  | Easing.Out, x => bezierY ⟨0, 0, 0.58, 1⟩ x
  | Easing.InOut, x => bezierY ⟨0.42, 0, 0.58, 1⟩ x
  | Easing.InSine, x => bezierY ⟨0.12, 0, 0.39, 0⟩ x
  | Easing.OutSine, x => bezierY ⟨0.61, 1, 0.88, 1⟩ x
  | Easing.InOutSine, x => bezierY ⟨0.37, 0, 0.63, 1⟩ x
  | Easing.InQuad, x => bezierY ⟨0.11, 0, 0.5, 0⟩ x
  | Easing.OutQuad, x => bezierY ⟨0.5, 1, 0.89, 1⟩ x
  | Easing.InOutQuad, x => bezierY ⟨0.45, 0, 0.55, 1⟩ x
  | Easing.InCubic, x => bezierY ⟨0.32, 0, 0.67, 0⟩ x
  | Easing.OutCubic, x => bezierY ⟨0.33, 1, 0.68, 1⟩ x
  | Easing.InOutCubic, x => bezierY ⟨0.65, 0, 0.35, 1⟩ x
  | Easing.InQuart, x => bezierY ⟨0.5, 0, 0.75, 0⟩ x
  | Easing.OutQuart, x => bezierY ⟨0.25, 1, 0.5, 1⟩ x
  | Easing.InOutQuart, x => bezierY ⟨0.76, 0, 0.24, 1⟩ x
  | Easing.InQuint, x => bezierY ⟨0.64, 0, 0.78, 0⟩ x
  | Easing.OutQuint, x => bezierY ⟨0.22, 1, 0.36, 1⟩ x
  | Easing.InOutQuint, x => bezierY ⟨0.83, 0, 0.17, 1⟩ x
  | Easing.InExpo, x => bezierY ⟨0.7, 0, 0.84, 0⟩ x
  | Easing.OutExpo, x => bezierY ⟨0.16, 1, 0.3, 1⟩ x
  | Easing.InOutExpo, x => bezierY ⟨0.87, 0, 0.13, 1⟩ x
  | Easing.InCirc, x => bezierY ⟨0.55, 0, 1, 0.45⟩ x
  | Easing.OutCirc, x => bezierY ⟨0, 0.55, 0.45, 1⟩ x
  | Easing.InOutCirc, x => bezierY ⟨0.85, 0, 0.15, 1⟩ x
  | Easing.InBack, x => bezierY ⟨0.36, 0, 0.66, -0.56⟩ x
  | Easing.OutBack, x => bezierY ⟨0.34, 1.56, 0.64, 1⟩ x
  | Easing.InOutBack, x => bezierY ⟨0.68, -0.6, 0.32, 1.6⟩ x
  | Easing.Custom f, x => f x

/-- `Lerp::lerp` for primitive numeric types from interpolation.rs:
`a * (1.0 - x) + b * x`. -/
def lerp (a b x : ℚ) : ℚ :=
  a * (1 - x) + b * x

/-- `Keyframe<Data>` from timeline.rs. -/
structure Keyframe (Data : Type) where
  data : Data
  easing : Option Easing
  normalizedTime : ℚ

/-- `SplitKeyframe<Value>` from timeline_helpers.rs, with `Value` instantiated
at `ℚ`.  Field order matches the Rust struct. -/
structure SplitKeyframe where
  easing : Easing
  normalizedTime : ℚ
  value : ℚ

/-- `SplitKeyframe::with_time` from timeline_helpers.rs: copies the frame's
value and easing under a new time. -/
def SplitKeyframe.withTime (f : SplitKeyframe) (normalizedTime : ℚ) : SplitKeyframe :=
  { f with normalizedTime := normalizedTime }

/-- `SubTimeline<Value>` from timeline_helpers.rs with `Value := ℚ`.
`frame_index_map` entries are the values `converted_frames.len() - 1` pushed by
`from_keyframes`; they are recorded as integers because the Rust subtraction is
performed on `usize`, which underflows when `len() == 0` (a panic in debug
builds, a wrap to `usize::MAX` in release builds).  A negative entry represents
the underflowed value, which matches no index of the frames vector. -/
structure SubTimeline where
  frames : List SplitKeyframe
  frameIndexMap : List ℤ

/-- The `for keyframe in keyframes` loop of `SubTimeline::from_keyframes`
(timeline_helpers.rs lines 70-91), with the accumulated
`converted_frames`, `frame_index_map` and `current_easing` made explicit. -/
def fromKeyframesLoop {Data : Type} (defaultValue : ℚ) (getValue : Data → Option ℚ) :
    List (Keyframe Data) → List SplitKeyframe → List ℤ → Easing →
    List SplitKeyframe × List ℤ × Easing
  | [], convertedFrames, frameIndexMap, currentEasing =>
    (convertedFrames, frameIndexMap, currentEasing)
  | kf :: rest, convertedFrames, frameIndexMap, currentEasing =>
    let convertedFrames :=
      if convertedFrames.isEmpty ∧ 0 < kf.normalizedTime then
        convertedFrames ++ [⟨currentEasing, 0, defaultValue⟩]
      else convertedFrames
    match getValue kf.data with
    | some v =>
      let currentEasing :=
        match kf.easing with
        | some e => e
        | none => currentEasing
      let convertedFrames := convertedFrames ++ [⟨currentEasing, kf.normalizedTime, v⟩]
      fromKeyframesLoop defaultValue getValue rest convertedFrames
        (frameIndexMap ++ [(convertedFrames.length : ℤ) - 1]) currentEasing
    | none =>
      fromKeyframesLoop defaultValue getValue rest convertedFrames
        (frameIndexMap ++ [(convertedFrames.length : ℤ) - 1]) currentEasing

/-- `SubTimeline::from_keyframes` from timeline_helpers.rs: the keyframe loop
followed by the synthesis of the trailing frame at `t = 1`. -/
def SubTimeline.fromKeyframes {Data : Type} (keyframes : List (Keyframe Data))
    (defaultValue : ℚ) (getValue : Data → Option ℚ) (defaultEasing : Easing) :
    SubTimeline :=
  let st := fromKeyframesLoop defaultValue getValue keyframes [] [] defaultEasing
  let convertedFrames := st.1
  let frames :=
    match convertedFrames.getLast? with
    | some frame =>
      if frame.normalizedTime < 1 then convertedFrames ++ [frame.withTime 1]
      else convertedFrames
    | none => convertedFrames
  { frames := frames, frameIndexMap := st.2.1 }

/-- `SubTimeline::get_bounding_frames` from timeline_helpers.rs.  The negative
guard on the map entry models the release-build behaviour of an underflowed
entry (`frames.get(usize::MAX)` is `None`); direct vector indexing in the
source is rendered with `getElem?` at indices that are in bounds whenever the
source's are. -/
def SubTimeline.getBoundingFrames (st : SubTimeline) (normalizedTime : ℚ)
    (indexHint : ℕ) : Option (SplitKeyframe × SplitKeyframe) :=
  match st.frameIndexMap[indexHint]? with
  | none => none
  | some indexAt =>
    if indexAt < 0 then none
    else
      match st.frames[indexAt.toNat]? with
      | none => none
      | some frameAt =>
        if normalizedTime < frameAt.normalizedTime then
          if 0 < indexAt then
            match st.frames[indexAt.toNat - 1]? with
            | none => none
            | some prev => some (prev, frameAt)
          else none
        else if indexAt.toNat = st.frames.length - 1 then
          some (frameAt, frameAt)
        else
          match st.frames[indexAt.toNat + 1]? with
          | none => none
          | some next => some (frameAt, next)

/-- `interpolate_value` from timeline_helpers.rs: zero-length intervals return
the start value; otherwise the easing of the start frame weights the lerp. -/
def interpolateValue (startFrame endFrame : SplitKeyframe) (time : ℚ) : ℚ :=
  let duration := endFrame.normalizedTime - startFrame.normalizedTime
  if duration = 0 then startFrame.value
  else
    let x := (time - startFrame.normalizedTime) / duration
    let y := startFrame.easing.calcY x
    lerp startFrame.value endFrame.value y

/-- `SubTimeline::value_at` from timeline_helpers.rs (the clamp is
`f32::clamp(0.0, 1.0)`). -/
def SubTimeline.valueAt (st : SubTimeline) (normalizedTime : ℚ) (indexHint : ℕ) :
    Option ℚ :=
  let normalizedTime := min (max normalizedTime 0) 1
  match st.getBoundingFrames normalizedTime indexHint with
  | none => none
  | some (s, e) => some (interpolateValue s e normalizedTime)

/-- The frame-index lookup of timeline.rs (`prepare_frame` lines 460-463 and
the identical lookup in the timeline_helpers.rs tests):
`binary_search_by(total_cmp)` mapped through `Ok(i) => i` and
`Err(next) => next.max(1) - 1`.  For a strictly sorted list — the only shape
for which `binary_search` specifies which index is returned — this is the
greatest index whose time is `≤` the query, or index 0 when there is none. -/
def findFrameIndex (boundaryTimes : List ℚ) (t : ℚ) : ℕ :=
  max 1 (boundaryTimes.countP (fun b => b ≤ t)) - 1

/-- The frame lookup performed for a query time by `Timeline` implementations
(`values_at` in the timeline_helpers.rs tests, `prepare_frame` callers):
resolve the master-keyframe index for the time, then ask the sub-timeline. -/
def lookupValueAt (st : SubTimeline) (boundaryTimes : List ℚ) (t : ℚ) : Option ℚ :=
  st.valueAt t (findFrameIndex boundaryTimes t)

/-- `prepare_frame` from timeline.rs. -/
def prepareFrame (time : ℚ) (boundaryTimes : List ℚ) (timescale : TimeScale) :
    Option (ℚ × ℕ × Bool) :=
  if boundaryTimes.isEmpty then none
  else
    let p :=
      match timescale.getPosition time with
      | TimeScalePosition.Active t ls => (t, !ls.isRepeating && !ls.isReversing)
      | TimeScalePosition.NotStarted => ((0 : ℚ), true)
      | TimeScalePosition.Ended t => (t, false)
    some (p.1, findFrameIndex boundaryTimes p.1, p.2)

/-- `MergedTimeline::update` from timeline.rs: apply each component timeline's
`update` to the target in list order.  Components are abstracted as their
update functions, matching the `T: Timeline` generic. -/
def MergedTimeline.update {T Target : Type} (upd : T → Target → ℚ → Target)
    (timelines : List T) (values : Target) (time : ℚ) : Target :=
  timelines.foldl (fun v tl => upd tl v time) values

/-- `TimelineConfiguration` from timeline.rs (builder state); the `repeat`
field is named `rpt` because `repeat` is a reserved word in Lean. -/
structure TimelineConfiguration (Data : Type) where
  defaultEasing : Easing
  delaySeconds : ℚ
  durationSeconds : ℚ
  keyframes : List (Keyframe Data)
  rpt : Repeat
  reverse : Bool

/-- `TimelineConfiguration::create_timescale` from timeline.rs: forwards the
four timing fields to `TimeScale::new` with no validation. -/
def TimelineConfiguration.createTimescale {Data : Type}
    (cfg : TimelineConfiguration Data) : TimeScale :=
  TimeScale.new cfg.durationSeconds cfg.delaySeconds cfg.rpt cfg.reverse

/-- `TimelineConfiguration::default` from timeline.rs. -/
def TimelineConfiguration.default (Data : Type) : TimelineConfiguration Data :=
  { defaultEasing := Easing.Linear
    delaySeconds := 0
    durationSeconds := 1
    keyframes := []
    rpt := Repeat.None
    reverse := false }

/-- Modelled from the spec: the sub-timeline used by the generated timeline
code in macros/src/derive_animate.rs carries a mutable start-value override
(`override_start_value`, spec section 4.3: "replace the value of the frame at
`time=0`") whose implementation is not present under src/core.  Per the
`Timeline::start_with` documentation in timeline.rs, the originally configured
start value must remain available ("the timeline will loop or reverse back to
the starting value with which it was originally configured"), so the override
is stored beside the frames and applied only when enabled. -/
structure BlendableSubTimeline where
  base : SubTimeline
  startValue : Option ℚ

/-- Replaces the value of the frame at the head of the frame list (the frame
at `time = 0`) with `v`, leaving every other frame and all easings unchanged. -/
def overrideHead : List SplitKeyframe → ℚ → List SplitKeyframe
  | [], _ => []
  | f :: rest, v => { f with value := v } :: rest

/-- Modelled from the spec: `SubTimeline::override_start_value` (spec section
4.3) — record the replacement value for the `time = 0` frame. -/
def BlendableSubTimeline.overrideStartValue (st : BlendableSubTimeline) (v : ℚ) :
    BlendableSubTimeline :=
  { st with startValue := some v }

/-- Modelled from the spec: the three-argument `value_at` called by the
generated timeline code, with `enable_start_override` as computed by
`prepare_frame` (true only before the first repetition or reversal); when the
override is enabled and set, the `time = 0` frame's value is replaced before
the core `value_at` lookup. -/
def BlendableSubTimeline.valueAt (st : BlendableSubTimeline) (normalizedTime : ℚ)
    (indexHint : ℕ) (enableStartOverride : Bool) : Option ℚ :=
  let base :=
    match st.startValue, enableStartOverride with
    | some v, true => { st.base with frames := overrideHead st.base.frames v }
    | _, _ => st.base
  base.valueAt normalizedTime indexHint

/-- The timeline struct emitted by `derive_animate.rs` (`timeline_struct`) for
a target type with a single animated field of type `ℚ`; the target is then the
field's value itself. -/
structure GenTimeline where
  boundaryTimes : List ℚ
  timescale : TimeScale
  tValue : BlendableSubTimeline

/-- `Timeline::update` as emitted by `derive_animate.rs`: `prepare_frame`, then
per-field `value_at`, writing the field only when a value is produced. -/
def GenTimeline.update (tl : GenTimeline) (target : ℚ) (time : ℚ) : ℚ :=
  match prepareFrame time tl.boundaryTimes tl.timescale with
  | none => target
  | some (normalizedTime, frameIndex, enableStartOverride) =>
    match tl.tValue.valueAt normalizedTime frameIndex enableStartOverride with
    | some v => v
    | none => target

/-- `Timeline::start_with` as emitted by `derive_animate.rs`: forwards each
field's value to `override_start_value`. -/
def GenTimeline.startWith (tl : GenTimeline) (values : ℚ) : GenTimeline :=
  { tl with tValue := tl.tValue.overrideStartValue values }

/-- `MergedTimeline::start_with` from timeline.rs: forward to every component. -/
def mergedStartWith (timelines : List GenTimeline) (values : ℚ) : List GenTimeline :=
  timelines.map (fun tl => tl.startWith values)

/-- `MappedTimelineAnimator` from animator.rs, over an abstract state type with
decidable equality (the `State: Clone + PartialEq` bound) and the
single-ℚ-field target.  The `MapLike` timeline map is a function to `Option`;
a merged timeline is its list of component timelines. -/
structure MappedTimelineAnimator (State : Type) where
  timelines : State → Option (List GenTimeline)
  currentState : State
  currentValues : ℚ
  stateDuration : ℚ

/-- `MappedTimelineAnimator::update_current_values` from animator.rs. -/
def MappedTimelineAnimator.updateCurrentValues {State : Type}
    (a : MappedTimelineAnimator State) : MappedTimelineAnimator State :=
  match a.timelines a.currentState with
  | some tls =>
    { a with currentValues :=
        MergedTimeline.update GenTimeline.update tls a.currentValues a.stateDuration }
  | none => a

/-- `MappedTimelineAnimator::blend_next_timeline` from animator.rs: rebase the
timeline registered for `state` (if any) onto the live values. -/
def MappedTimelineAnimator.blendNextTimeline {State : Type} [DecidableEq State]
    (a : MappedTimelineAnimator State) (state : State) : MappedTimelineAnimator State :=
  { a with timelines := fun st =>
      if st = state then (a.timelines state).map (fun tls => mergedStartWith tls a.currentValues)
      else a.timelines st }

/-- `MappedTimelineAnimator::set_state` from animator.rs. -/
def MappedTimelineAnimator.setState {State : Type} [DecidableEq State]
    (a : MappedTimelineAnimator State) (state : State) : MappedTimelineAnimator State :=
  if state = a.currentState then a
  else
    let a := a.blendNextTimeline state
    let a := { a with currentState := state, stateDuration := 0 }
    a.updateCurrentValues

/-- `StateAnimator::advance` as implemented by `MappedTimelineAnimator`. -/
def MappedTimelineAnimator.advance {State : Type}
    (a : MappedTimelineAnimator State) (elapsedSeconds : ℚ) : MappedTimelineAnimator State :=
  MappedTimelineAnimator.updateCurrentValues { a with stateDuration := a.stateDuration + elapsedSeconds }

/-- An easing whose curve starts at the origin: `calc 0 = 0`.  Every named
(cubic-bezier or linear) easing satisfies this; a `Custom` easing need not. -/
def ZeroFixed (e : Easing) : Prop :=
  e.calcY 0 = 0

/-- Well-formedness of a sub-timeline as produced by `from_keyframes` from a
strictly time-sorted keyframe list whose first keyframe defines the extracted
property or lies after 0%: frame times strictly increase, the first frame sits
at `time = 0` with an easing fixed at the origin, and the first index-map entry
points at frame 0 or 1. -/
def ValidTrack (st : SubTimeline) : Prop :=
  List.Pairwise (fun a b => a.normalizedTime < b.normalizedTime) st.frames ∧
  (∀ f, st.frames[0]? = some f → f.normalizedTime = 0 ∧ ZeroFixed f.easing) ∧
  (∀ i, st.frameIndexMap[0]? = some i →
    i ≤ 1 ∧ (0 ≤ i → i.toNat < st.frames.length))

/-- Well-formedness of a generated timeline: non-negative delay, positive cycle
duration, strictly sorted non-negative boundary times, and a well-formed track. -/
def ValidTimeline (tl : GenTimeline) : Prop :=
  0 ≤ tl.timescale.delay ∧ 0 < tl.timescale.duration ∧
  List.Pairwise (fun a b => a < b) tl.boundaryTimes ∧
  (∀ b ∈ tl.boundaryTimes, 0 ≤ b) ∧
  ValidTrack tl.tValue.base

/-- The keyframe list of the carry-forward property (spec section 8): the
animated property has value 30 at normalized time 0.5 and 50 at 0.75, with no
keyframe at 0% or 100%.  The keyframe data is the property's `Option` value
itself, so the value extractor is the identity. -/
def carryKeyframes : List (Keyframe (Option ℚ)) :=
  [⟨some 30, none, 0.5⟩, ⟨some 50, none, 0.75⟩]

/-- The sub-timeline built from `carryKeyframes` with default value `d` and
default (`Linear`) easing. -/
def carryTrack (d : ℚ) : SubTimeline :=
  SubTimeline.fromKeyframes carryKeyframes d id Easing.Linear

/-- The boundary times of `carryKeyframes`, as collected by
`TimelineConfiguration::get_boundary_times`. -/
def carryBoundary : List ℚ :=
  [0.5, 0.75]

/-- Keyframes where the middle keyframe declares an easing (`InQuad`) but no
value for the extracted property: value 0 at time 0, easing-only at 0.5,
value 100 at 0.75. -/
def skipKeyframes : List (Keyframe (Option ℚ)) :=
  [⟨some 0, none, 0⟩, ⟨none, some Easing.InQuad, 0.5⟩, ⟨some 100, none, 0.75⟩]

/-- The sub-timeline built from `skipKeyframes` with default value 0 and
default (`Linear`) easing. -/
def skipTrack : SubTimeline :=
  SubTimeline.fromKeyframes skipKeyframes 0 id Easing.Linear

/-- Keyframes probing easing locality: values 0, 25, 50, 100 at times 0, 0.25,
0.5, 1, with the easing parameter `e` declared on the keyframe at 0.25 and no
easing declared afterwards. -/
def localKeyframes (e : Easing) : List (Keyframe (Option ℚ)) :=
  [⟨some 0, none, 0⟩, ⟨some 25, some e, 0.25⟩, ⟨some 50, none, 0.5⟩,
   ⟨some 100, none, 1⟩]

/-- The sub-timeline built from `localKeyframes e` with default value 0 and
default (`Linear`) easing. -/
def localTrack (e : Easing) : SubTimeline :=
  SubTimeline.fromKeyframes (localKeyframes e) 0 id Easing.Linear

/-- The boundary times of `localKeyframes`. -/
def localBoundary : List ℚ :=
  [0, 0.25, 0.5, 1]

/-- Keyframes for the blend-continuity witness: a single keyframe taking the
animated property to 100 at normalized time 0.5. -/
def blendKeyframes : List (Keyframe (Option ℚ)) :=
  [⟨some 100, none, 0.5⟩]

/-- A concrete generated timeline over `blendKeyframes`: duration 1, no delay,
no repeat, no reverse. -/
def blendTimeline : GenTimeline :=
  { boundaryTimes := [0.5]
    timescale := TimeScale.new 1 0 Repeat.None false
    tValue := ⟨SubTimeline.fromKeyframes blendKeyframes 0 id Easing.Linear, none⟩ }

/-- A concrete animator holding `blendTimeline` for state `true`, currently in
state `false` with live value 7. -/
def blendAnimator : MappedTimelineAnimator Bool :=
  { timelines := fun st => if st then some [blendTimeline] else none
    currentState := false
    currentValues := 7
    stateDuration := 0 }

/-- C1: for every `TimeScale` with repeat `Times(k)` or `Infinite` and every
delay-adjusted time `t = time - delay` with `t ≥ 0` that is not past the end
(for `Times(k)`, `t ≤ cycle_duration*(k+1)`), `get_position` applies the
modulo rule: with `quot = t / cycle_duration` and `rem = t % cycle_duration`,
if `rem = 0` and `quot ≥ 1` the cycle time holds at `cycle_duration` with
`is_repeating` true iff `quot > 1`; otherwise the cycle time is `rem` with
`is_repeating` true iff `quot ≥ 1`.  In particular, for `cycle_duration=20`,
`delay=0`, `repeat=Times(2)`, `reverse=false`: `get_position(20) =
Active(1.0, repeating=false)`, `get_position(21) = Active(0.05,
repeating=true)`, `get_position(40) = Active(1.0, repeating=true)`, and
`get_position(61) = Ended(1.0)`. -/
theorem mina_c1 :
    (∀ (ts : TimeScale) (time : ℚ) (k : Nat),
      0 < ts.duration →
      0 ≤ time - ts.delay →
      ((ts.rpt = Repeat.Times k ∧ time - ts.delay ≤ ts.duration * (k + 1)) ∨
        ts.rpt = Repeat.Infinite) →
      ts.cycleTimeAndRepeat (time - ts.delay) =
        (let quot := (time - ts.delay) / ts.duration
         let rem := fmod (time - ts.delay) ts.duration
         if rem = 0 ∧ 1 ≤ quot then some (ts.duration, decide (1 < quot))
         else some (rem, decide (1 ≤ quot)))) ∧
    (TimeScale.new 20 0 (Repeat.Times 2) false).getPosition 20 =
      TimeScalePosition.Active 1 ⟨false, false⟩ ∧
    (TimeScale.new 20 0 (Repeat.Times 2) false).getPosition 21 =
      TimeScalePosition.Active 0.05 ⟨true, false⟩ ∧
    (TimeScale.new 20 0 (Repeat.Times 2) false).getPosition 40 =
      TimeScalePosition.Active 1 ⟨true, false⟩ ∧
    (TimeScale.new 20 0 (Repeat.Times 2) false).getPosition 61 =
      TimeScalePosition.Ended 1 := by
  refine ⟨?_, ?_, ?_, ?_, ?_⟩
  · intro ts time k hdur ht hrpt
    rcases hrpt with ⟨hk, hle⟩ | hinf
    · simp only [TimeScale.cycleTimeAndRepeat, hk]
      rw [if_neg (not_lt.mpr hle)]
    · simp only [TimeScale.cycleTimeAndRepeat, hinf]
  all_goals
    norm_num [TimeScale.new, TimeScale.getPosition, TimeScale.cycleTimeAndRepeat,
      fmod, TimeScale.positionEnded]

/-- Witness for C1: the modulo-rule theorem applied to the concrete timescale
`duration=10, delay=3, repeat=Times(3)` at time 28 (delay-adjusted 25). -/
theorem mina_c1_witness :
    (TimeScale.new 10 3 (Repeat.Times 3) false).cycleTimeAndRepeat 25 =
      some (5, true) := by
  have h := mina_c1.1 (TimeScale.new 10 3 (Repeat.Times 3) false) 28 3
    (by norm_num [TimeScale.new]) (by norm_num [TimeScale.new])
    (Or.inl ⟨rfl, by norm_num [TimeScale.new]⟩)
  norm_num [TimeScale.new, fmod] at h ⊢
  exact h

/-- C4: for every `TimeScale` and every active cycle position with
`cycle_ratio = cycle_time / cycle_duration`: when reversing and
`cycle_ratio > 0.5` the normalized time is `(1 - cycle_ratio)*2` with
`is_reversing` true; when reversing and `cycle_ratio ≤ 0.5` it is
`cycle_ratio*2` with `is_reversing` false; when not reversing it is
`cycle_ratio` with `is_reversing` false; and an `Ended` result carries
normalized time 0 when reversing, else 1.  In particular, for
`cycle_duration=20, repeat=Infinite, reverse=true`: `get_position(10) =
Active(1.0, reversing=false)`, `get_position(20) = Active(0.0,
reversing=true)`, `get_position(22.5) = Active(0.25, repeating=true,
reversing=false)`, `get_position(40) = Active(0.0, repeating=true,
reversing=true)`. -/
theorem mina_c4 :
    (∀ (ts : TimeScale) (time cycleTime : ℚ) (isRepeating : Bool),
      0 ≤ time - ts.delay →
      ts.cycleTimeAndRepeat (time - ts.delay) = some (cycleTime, isRepeating) →
      ts.getPosition time =
        (let cycleRatio := cycleTime / ts.duration
         if ts.reverse ∧ 1/2 < cycleRatio then
           TimeScalePosition.Active ((1 - cycleRatio) * 2) ⟨isRepeating, true⟩
         else if ts.reverse then
           TimeScalePosition.Active (cycleRatio * 2) ⟨isRepeating, false⟩
         else
           TimeScalePosition.Active cycleRatio ⟨isRepeating, false⟩)) ∧
    (∀ ts : TimeScale,
      ts.positionEnded = TimeScalePosition.Ended (if ts.reverse then 0 else 1)) ∧
    (TimeScale.new 20 0 Repeat.Infinite true).getPosition 10 =
      TimeScalePosition.Active 1 ⟨false, false⟩ ∧
    (TimeScale.new 20 0 Repeat.Infinite true).getPosition 20 =
      TimeScalePosition.Active 0 ⟨false, true⟩ ∧
    (TimeScale.new 20 0 Repeat.Infinite true).getPosition 22.5 =
      TimeScalePosition.Active 0.25 ⟨true, false⟩ ∧
    (TimeScale.new 20 0 Repeat.Infinite true).getPosition 40 =
      TimeScalePosition.Active 0 ⟨true, true⟩ := by
  refine ⟨?_, fun ts => rfl, ?_, ?_, ?_, ?_⟩
  · intro ts time cycleTime isRepeating ht h
    simp only [TimeScale.getPosition]
    rw [if_neg (not_lt.mpr ht), h]
  all_goals
    norm_num [TimeScale.new, TimeScale.getPosition, TimeScale.cycleTimeAndRepeat,
      fmod, TimeScale.positionEnded]

/-- Witness for C4: the normalization theorem applied to the concrete infinite
reversing timescale at time 32.5 (cycle time 12.5, ratio 0.625). -/
theorem mina_c4_witness :
    (TimeScale.new 20 0 Repeat.Infinite true).getPosition (65/2) =
      TimeScalePosition.Active (3/4) ⟨true, true⟩ := by
  have h := mina_c4.1 (TimeScale.new 20 0 Repeat.Infinite true) (65/2) (25/2) true
    (by norm_num [TimeScale.new])
    (by norm_num [TimeScale.new, TimeScale.cycleTimeAndRepeat, fmod])
  norm_num [TimeScale.new] at h
  exact h

/-- C3 (code bug): the claim requires every named easing variant to evaluate
the Bézier at the parameter `t` for which the curve's x coordinate equals the
query `x`, but `CubicBezierEasing::calc` forwards to lyon_geom
`CubicBezierSegment::y(x)`, the parametric evaluation at `t = x`.  At the
failing input `Easing::In` with `x = 1/2` the code returns `1/2`, while every
parameter `t ∈ [0, 1]` whose x coordinate on the `In` curve is `1/2` has a
y coordinate below `2/5` — a gap far beyond the claim's `≈1e-4` tolerance. -/
theorem mina_c3 :
    Easing.calcY Easing.In (1/2) = 1/2 ∧
    ¬ ∃ t : ℚ, 0 ≤ t ∧ t ≤ 1 ∧
      bezierX ⟨0.42, 0, 1, 1⟩ t = 1/2 ∧ 2/5 ≤ bezierY ⟨0.42, 0, 1, 1⟩ t := by
  constructor
  · norm_num [Easing.calcY, bezierY]
  · rintro ⟨t, h0, h1, hx, hy⟩
    simp only [bezierX, bezierY] at hx hy
    norm_num at hx hy
    nlinarith [sq_nonneg t, sq_nonneg (1 - t), sq_nonneg (t - 1/2), sq_nonneg (t - 2/5),
      mul_nonneg h0 h0, mul_nonneg (mul_nonneg h0 h0) h0]

/-- Helper: the concrete frames and index map produced by `from_keyframes` for
the carry-forward keyframe list — a synthesized default-value frame at 0, the
two declared frames, and a synthesized hold frame at 1. -/
theorem carryTrack_eval (d : ℚ) :
    (carryTrack d).frames =
      [⟨Easing.Linear, 0, d⟩, ⟨Easing.Linear, 1/2, 30⟩,
       ⟨Easing.Linear, 3/4, 50⟩, ⟨Easing.Linear, 1, 50⟩] ∧
    (carryTrack d).frameIndexMap = [1, 2] := by
  constructor <;>
    norm_num [carryTrack, SubTimeline.fromKeyframes, fromKeyframesLoop,
      carryKeyframes, SplitKeyframe.withTime]

/-- C2 (counterexample): with default value 0, the query 1/4 — below the first
value-bearing keyframe time 0.5 — does not return the default value; the track
interpolates from the synthesized default frame at 0 toward the keyframe value
30 and yields 15. -/
theorem mina_c2_counterexample :
    lookupValueAt (carryTrack 0) carryBoundary (1/4) = some 15 ∧ (15 : ℚ) ≠ 0 := by
  obtain ⟨hf, hm⟩ := carryTrack_eval 0
  refine ⟨?_, by norm_num⟩
  norm_num [lookupValueAt, findFrameIndex, carryBoundary, SubTimeline.valueAt,
    SubTimeline.getBoundingFrames, hf, hm, interpolateValue, Easing.calcY, lerp]

set_option maxHeartbeats 1000000 in
/-- C2 (amended): for a track built with default value `d` from keyframes
defining the property only at `0.5 → 30` and `0.75 → 50`, `value_at` returns
the default value exactly at (and below) query time 0, interpolates from the
default `d` toward 30 on `[0, 0.5]`, interpolates between 30 and 50 on
`[0.5, 0.75]`, and holds 50 for every query above 0.75. -/
theorem mina_c2_amended (d t : ℚ) :
    (t ≤ 0 → lookupValueAt (carryTrack d) carryBoundary t = some d) ∧
    (0 ≤ t → t ≤ 1/2 →
      lookupValueAt (carryTrack d) carryBoundary t = some (lerp d 30 (2 * t))) ∧
    (1/2 ≤ t → t ≤ 3/4 →
      lookupValueAt (carryTrack d) carryBoundary t =
        some (lerp 30 50 (4 * (t - 1/2)))) ∧
    (3/4 < t → lookupValueAt (carryTrack d) carryBoundary t = some 50) := by
  obtain ⟨hf, hm⟩ := carryTrack_eval d
  have htn1 : (1 : ℤ).toNat = 1 := rfl
  have htn2 : (2 : ℤ).toNat = 2 := rfl
  refine ⟨?_, ?_, ?_, ?_⟩
  · intro ht
    have h1 : ¬ ((1/2 : ℚ) ≤ t) := by linarith
    have h2 : ¬ ((3/4 : ℚ) ≤ t) := by linarith
    have hmax : max t 0 = 0 := max_eq_right ht
    norm_num [lookupValueAt, findFrameIndex, carryBoundary, List.countP_cons,
      List.countP_nil, h1, h2, SubTimeline.valueAt, hmax,
      SubTimeline.getBoundingFrames, htn1, htn2, hf, hm, interpolateValue, Easing.calcY, lerp]
  · intro h0 hhalf
    rcases lt_or_eq_of_le hhalf with hlt | heq
    · have h1 : ¬ ((1/2 : ℚ) ≤ t) := by linarith
      have h2 : ¬ ((3/4 : ℚ) ≤ t) := by linarith
      have hmax : max t 0 = t := max_eq_left h0
      have hmin : min t 1 = t := min_eq_left (by linarith)
      norm_num [lookupValueAt, findFrameIndex, carryBoundary, List.countP_cons,
        List.countP_nil, h1, h2, SubTimeline.valueAt, hmax, hmin,
        SubTimeline.getBoundingFrames, htn1, htn2, hf, hm, hlt, interpolateValue,
        Easing.calcY, lerp]
      ring_nf
    · subst heq
      norm_num [lookupValueAt, findFrameIndex, carryBoundary, List.countP_cons,
        List.countP_nil, SubTimeline.valueAt, SubTimeline.getBoundingFrames,
        htn1, htn2, hf, hm, interpolateValue, Easing.calcY, lerp]
  · intro hhalf h34
    rcases lt_or_eq_of_le h34 with hlt | heq
    · have h1 : (1/2 : ℚ) ≤ t := hhalf
      have h2 : ¬ ((3/4 : ℚ) ≤ t) := by linarith
      have hmax : max t 0 = t := max_eq_left (by linarith)
      have hmin : min t 1 = t := min_eq_left (by linarith)
      have hnl : ¬ (t < 1/2) := not_lt.mpr hhalf
      norm_num [lookupValueAt, findFrameIndex, carryBoundary, List.countP_cons,
        List.countP_nil, h1, h2, SubTimeline.valueAt, hmax, hmin,
        SubTimeline.getBoundingFrames, htn1, htn2, hf, hm, hnl, interpolateValue,
        Easing.calcY, lerp]
      ring_nf
    · subst heq
      norm_num [lookupValueAt, findFrameIndex, carryBoundary, List.countP_cons,
        List.countP_nil, SubTimeline.valueAt, SubTimeline.getBoundingFrames,
        htn1, htn2, hf, hm, interpolateValue, Easing.calcY, lerp]
  · intro h34
    have h1 : (1/2 : ℚ) ≤ t := by linarith
    have h2 : (3/4 : ℚ) ≤ t := le_of_lt h34
    have hmax : max t 0 = t := max_eq_left (by linarith)
    have hnl : ¬ (min t 1 < 3/4) :=
      not_lt.mpr (le_min h2 (by norm_num) : (3/4 : ℚ) ≤ min t 1)
    norm_num [lookupValueAt, findFrameIndex, carryBoundary, List.countP_cons,
      List.countP_nil, h1, h2, SubTimeline.valueAt, hmax,
      SubTimeline.getBoundingFrames, htn1, htn2, hf, hm, hnl, interpolateValue,
      Easing.calcY, lerp]
    ring_nf

/-- Witness for the amended C2: default value 7, query 1/4 — interpolation
between the synthesized default frame and the 0.5 keyframe gives 18.5. -/
theorem mina_c2_witness :
    lookupValueAt (carryTrack 7) carryBoundary (1/4) = some (37/2) := by
  have h := (mina_c2_amended 7 (1/4)).2.1 (by norm_num) (by norm_num)
  norm_num [lerp] at h
  exact h

/-- Helper for C6: the `current_easing` accumulator of the `from_keyframes`
loop is updated by a keyframe's declared easing only when the keyframe also
carries a value for the extracted property. -/
theorem fromKeyframesLoop_easing {Data : Type} (dv : ℚ) (gv : Data → Option ℚ) :
    ∀ (kfs : List (Keyframe Data)) (frames : List SplitKeyframe) (idx : List ℤ)
      (cur : Easing),
      (fromKeyframesLoop dv gv kfs frames idx cur).2.2 =
        kfs.foldl
          (fun c kf => if (gv kf.data).isSome then kf.easing.getD c else c) cur
  | [], frames, idx, cur => rfl
  | kf :: rest, frames, idx, cur => by
    simp only [fromKeyframesLoop, List.foldl_cons]
    cases h : gv kf.data with
    | none =>
      simp only [h, Option.isSome_none, Bool.false_eq_true, if_false]
      exact fromKeyframesLoop_easing dv gv rest _ _ cur
    | some v =>
      simp only [h, Option.isSome_some, if_true]
      cases he : kf.easing with
      | none =>
        simp only [he, Option.getD_none]
        exact fromKeyframesLoop_easing dv gv rest _ _ cur
      | some e =>
        simp only [he, Option.getD_some]
        exact fromKeyframesLoop_easing dv gv rest _ _ e

/-- Helper for C6: the `from_keyframes` loop produces an identical state
whether or not a keyframe carrying no value for the extracted property
declares an easing. -/
theorem fromKeyframesLoop_valueless {Data : Type} (dv : ℚ) (gv : Data → Option ℚ)
    (kf : Keyframe Data) (hkf : gv kf.data = none) (post : List (Keyframe Data)) :
    ∀ (pre : List (Keyframe Data)) (frames : List SplitKeyframe) (idx : List ℤ)
      (cur : Easing),
      fromKeyframesLoop dv gv (pre ++ kf :: post) frames idx cur =
        fromKeyframesLoop dv gv (pre ++ { kf with easing := none } :: post)
          frames idx cur
  | [], frames, idx, cur => by
    simp only [List.nil_append, fromKeyframesLoop, hkf]
  | a :: pre, frames, idx, cur => by
    simp only [List.cons_append, fromKeyframesLoop]
    cases h : gv a.data with
    | none =>
      simp only [h]
      exact fromKeyframesLoop_valueless dv gv kf hkf post pre _ _ _
    | some v =>
      simp only [h]
      exact fromKeyframesLoop_valueless dv gv kf hkf post pre _ _ _

/-- C6 (counterexample): in `skipKeyframes` the middle keyframe declares
easing `InQuad` but omits the property, so — contrary to the claim — the
running `current_easing` is not updated by it: the frame emitted for the next
value-bearing keyframe (frame index 1) still carries the default `Linear`
easing rather than `InQuad`. -/
theorem mina_c6_counterexample :
    skipTrack.frames[1]? = some ⟨Easing.Linear, 3/4, 100⟩ ∧
    skipTrack.frameIndexMap = [0, 0, 1] ∧
    Easing.Linear ≠ Easing.InQuad := by
  refine ⟨?_, ?_, fun h => Easing.noConfusion h⟩ <;>
    norm_num [skipTrack, skipKeyframes, SubTimeline.fromKeyframes,
      fromKeyframesLoop, SplitKeyframe.withTime]

/-- C6 (amended): the running `current_easing` of `from_keyframes` starts at
`default_easing` and is updated by a keyframe's declared easing only when that
keyframe also contains a value for the property being extracted; an easing
declared on a keyframe that omits the property is ignored entirely — erasing
such a keyframe's easing leaves the constructed sub-timeline unchanged. -/
theorem mina_c6_amended :
    (∀ (Data : Type) (dv : ℚ) (gv : Data → Option ℚ) (de : Easing)
      (kfs : List (Keyframe Data)),
      (fromKeyframesLoop dv gv kfs [] [] de).2.2 =
        kfs.foldl
          (fun c kf => if (gv kf.data).isSome then kf.easing.getD c else c) de) ∧
    (∀ (Data : Type) (dv : ℚ) (gv : Data → Option ℚ) (de : Easing)
      (pre post : List (Keyframe Data)) (kf : Keyframe Data),
      gv kf.data = none →
      SubTimeline.fromKeyframes (pre ++ kf :: post) dv gv de =
        SubTimeline.fromKeyframes (pre ++ { kf with easing := none } :: post)
          dv gv de) := by
  constructor
  · intro Data dv gv de kfs
    exact fromKeyframesLoop_easing dv gv kfs [] [] de
  · intro Data dv gv de pre post kf h
    unfold SubTimeline.fromKeyframes
    rw [fromKeyframesLoop_valueless dv gv kf h post pre [] [] de]

/-- Witness for the amended C6: erasing the easing declared on the valueless
middle keyframe of `skipKeyframes` leaves the constructed track unchanged. -/
theorem mina_c6_witness :
    SubTimeline.fromKeyframes skipKeyframes 0 id Easing.Linear =
      SubTimeline.fromKeyframes
        [⟨some 0, none, 0⟩, ⟨none, none, 0.5⟩, ⟨some 100, none, 0.75⟩]
        0 id Easing.Linear := by
  have h := mina_c6_amended.2 (Option ℚ) 0 id Easing.Linear
    [⟨some 0, none, 0⟩] [⟨some 100, none, 0.75⟩]
    ⟨none, some Easing.InQuad, 0.5⟩ rfl
  simpa [skipKeyframes] using h

/-- Helper for C7: `interpolate_value` reads only the time and value of the
interval's end frame — its easing is irrelevant. -/
theorem interpolateValue_endCongr (s e1 e2 : SplitKeyframe) (t : ℚ)
    (h1 : e1.normalizedTime = e2.normalizedTime) (h2 : e1.value = e2.value) :
    interpolateValue s e1 t = interpolateValue s e2 t := by
  simp only [interpolateValue, h1, h2]

/-- Helper for C7: the concrete frames and index map of `localTrack e` — the
easing declared at keyframe 0.25 is carried onto the frames at 0.25, 0.5
and 1. -/
theorem localTrack_eval (e : Easing) :
    (localTrack e).frames =
      [⟨Easing.Linear, 0, 0⟩, ⟨e, 1/4, 25⟩, ⟨e, 1/2, 50⟩, ⟨e, 1, 100⟩] ∧
    (localTrack e).frameIndexMap = [0, 1, 2, 3] := by
  constructor <;>
    norm_num [localTrack, localKeyframes, SubTimeline.fromKeyframes,
      fromKeyframesLoop, SplitKeyframe.withTime]

/-- C7 (counterexample): the easing declared on the keyframe `k` at time 0.25
is inherited by the following keyframes, so changing it from `Linear` to
`InQuad` changes the interpolated value at query 0.75 — a time inside the
interval `[0.5, 1] = [k+1, k+2]`, not `[k, k+1]`: the value moves from 75 to
56.25. -/
theorem mina_c7_counterexample :
    lookupValueAt (localTrack Easing.Linear) localBoundary (3/4) = some 75 ∧
    lookupValueAt (localTrack Easing.InQuad) localBoundary (3/4) = some (225/4) ∧
    (75 : ℚ) ≠ 225/4 := by
  obtain ⟨hfL, hmL⟩ := localTrack_eval Easing.Linear
  obtain ⟨hfQ, hmQ⟩ := localTrack_eval Easing.InQuad
  have htn : (2 : ℤ).toNat = 2 := rfl
  refine ⟨?_, ?_, by norm_num⟩ <;>
    norm_num [lookupValueAt, findFrameIndex, localBoundary, List.countP_cons,
      List.countP_nil, SubTimeline.valueAt, SubTimeline.getBoundingFrames, htn,
      hfL, hmL, hfQ, hmQ, interpolateValue, Easing.calcY, bezierY, lerp]

/-- C7 (amended): the easing applied to an interpolated interval is the one
carried by the interval's start frame, and the end frame's easing never
matters (so an easing declared on keyframe `k` never affects the preceding
interval `[k-1, k]`, though it does govern `[k, k+1]` and, by inheritance, any
following intervals up to the next easing declaration); when the two bounding
frames have equal times, the start frame's value is returned without dividing
by the zero-length duration.  The third conjunct states locality at track
level: two tracks agreeing on all frame times and values, and agreeing fully
up to the hinted frame, produce identical `value_at` results there, whatever
the easings of the later frames. -/
theorem mina_c7_amended :
    (∀ (s e1 e2 : SplitKeyframe) (t : ℚ),
      e1.normalizedTime = e2.normalizedTime → e1.value = e2.value →
      interpolateValue s e1 t = interpolateValue s e2 t) ∧
    (∀ (s e : SplitKeyframe) (t : ℚ),
      e.normalizedTime = s.normalizedTime → interpolateValue s e t = s.value) ∧
    (∀ (st1 st2 : SubTimeline) (t : ℚ) (hint : ℕ),
      st1.frameIndexMap = st2.frameIndexMap →
      st1.frames.length = st2.frames.length →
      (∀ j : ℕ, (st1.frames[j]?).map (fun f => (f.normalizedTime, f.value)) =
        (st2.frames[j]?).map (fun f => (f.normalizedTime, f.value))) →
      (∀ i, st1.frameIndexMap[hint]? = some i → 0 ≤ i →
        ∀ j ≤ i.toNat, st1.frames[j]? = st2.frames[j]?) →
      st1.valueAt t hint = st2.valueAt t hint) := by
  refine ⟨interpolateValue_endCongr, ?_, ?_⟩
  · intro s e t h
    simp [interpolateValue, h]
  · intro st1 st2 t hint hmap hlen hvt hpre
    simp only [SubTimeline.valueAt, SubTimeline.getBoundingFrames, hmap]
    cases hidx : st2.frameIndexMap[hint]? with
    | none => rfl
    | some i =>
      by_cases hneg : i < 0
      · simp [hneg]
      · have h0i : 0 ≤ i := not_lt.mp hneg
        have hpre2 := hpre i (hmap ▸ hidx) h0i
        have hAt : st1.frames[i.toNat]? = st2.frames[i.toNat]? :=
          hpre2 i.toNat le_rfl
        cases hfr : st2.frames[i.toNat]? with
        | none => simp [hneg, hfr, hAt]
        | some frameAt =>
          by_cases hlt : min (max t 0) 1 < frameAt.normalizedTime
          · by_cases hpos : 0 < i
            · have hPrev : st1.frames[i.toNat - 1]? = st2.frames[i.toNat - 1]? :=
                hpre2 _ (Nat.sub_le _ _)
              simp [hneg, hfr, hAt, hlt, hpos, hPrev]
            · simp [hneg, hfr, hAt, hlt, hpos]
          · by_cases hlast : i.toNat = st2.frames.length - 1
            · have hAt1 : st1.frames[st2.frames.length - 1]? = some frameAt := by
                rw [← hlast]; exact hAt.trans hfr
              have hfr1 : st2.frames[st2.frames.length - 1]? = some frameAt := by
                rw [← hlast]; exact hfr
              simp [hneg, hlast, hlen, hAt1, hfr1, hlt]
            · cases hn1 : st1.frames[i.toNat + 1]? with
              | none =>
                cases hn2 : st2.frames[i.toNat + 1]? with
                | none => simp [hneg, hfr, hAt, hlt, hlast, hlen, hn1, hn2]
                | some n2 =>
                  have h := hvt (i.toNat + 1)
                  rw [hn1, hn2] at h
                  simp at h
              | some n1 =>
                cases hn2 : st2.frames[i.toNat + 1]? with
                | none =>
                  have h := hvt (i.toNat + 1)
                  rw [hn1, hn2] at h
                  simp at h
                | some n2 =>
                  have hTV : n1.normalizedTime = n2.normalizedTime ∧
                      n1.value = n2.value := by
                    have h := hvt (i.toNat + 1)
                    rw [hn1, hn2] at h
                    simpa using h
                  have hIv := interpolateValue_endCongr frameAt n1 n2
                    (min (max t 0) 1) hTV.1 hTV.2
                  simp [hneg, hfr, hAt, hlt, hlast, hlen, hn1, hn2, hIv]

/-- Witness for the amended C7: the two `localTrack` instances differ only in
the easing declared on the keyframe at 0.25, so a query at 1/8 — inside the
preceding interval `[0, 0.25]` — produces the same value in both. -/
theorem mina_c7_witness :
    SubTimeline.valueAt (localTrack Easing.Linear) (1/8) 0 =
      SubTimeline.valueAt (localTrack Easing.InQuad) (1/8) 0 := by
  obtain ⟨hfL, hmL⟩ := localTrack_eval Easing.Linear
  obtain ⟨hfQ, hmQ⟩ := localTrack_eval Easing.InQuad
  refine mina_c7_amended.2.2 _ _ (1/8) 0 (by rw [hmL, hmQ])
    (by rw [hfL, hfQ]; rfl) ?_ ?_
  · intro j
    rw [hfL, hfQ]
    rcases j with _ | _ | _ | _ | j <;> simp
  · intro i hi h0 j hj
    rw [hmL] at hi
    have hi0 : i = 0 := by simpa using hi.symm
    subst hi0
    have hj0 : j = 0 := Nat.le_zero.mp hj
    subst hj0
    rw [hfL, hfQ]
    rfl

/-- Helper for C10: the `from_keyframes` loop only appends to the index map it
is given. -/
theorem fromKeyframesLoop_map_append {Data : Type} (dv : ℚ) (gv : Data → Option ℚ) :
    ∀ (kfs : List (Keyframe Data)) (frames : List SplitKeyframe) (idx : List ℤ)
      (cur : Easing),
      ∃ suffix, (fromKeyframesLoop dv gv kfs frames idx cur).2.1 = idx ++ suffix
  | [], frames, idx, cur => ⟨[], by simp [fromKeyframesLoop]⟩
  | kf :: rest, frames, idx, cur => by
    simp only [fromKeyframesLoop]
    cases h : gv kf.data with
    | some v =>
      simp only [h]
      obtain ⟨s, hs⟩ := fromKeyframesLoop_map_append dv gv rest _ _ _
      exact ⟨_, by rw [hs, List.append_assoc]⟩
    | none =>
      simp only [h]
      obtain ⟨s, hs⟩ := fromKeyframesLoop_map_append dv gv rest _ _ _
      exact ⟨_, by rw [hs, List.append_assoc]⟩

/-- Helper for C10: the index map of a constructed sub-timeline is exactly the
map accumulated by the loop (the trailing-frame synthesis touches only the
frame list). -/
theorem fromKeyframes_map {Data : Type} (kfs : List (Keyframe Data)) (dv : ℚ)
    (gv : Data → Option ℚ) (de : Easing) :
    (SubTimeline.fromKeyframes kfs dv gv de).frameIndexMap =
      (fromKeyframesLoop dv gv kfs [] [] de).2.1 :=
  rfl

/-- C10: `from_keyframes` is not total — whenever the first keyframe sits at
normalized time 0 but carries no value for the extracted property, no frame
has been emitted when the first index-map entry is recorded, so the source's
`converted_frames.len() - 1` is the usize subtraction `0 - 1`: an underflow
(panic in debug builds, wrap to `usize::MAX` in release builds).  In the
embedding the recorded entry is the negative integer `-1`, which matches no
frame index, and `value_at` at that hint can only return `None`. -/
theorem mina_c10 :
    ∀ (Data : Type) (dv : ℚ) (gv : Data → Option ℚ) (de : Easing)
      (kf : Keyframe Data) (rest : List (Keyframe Data)),
      kf.normalizedTime = 0 → gv kf.data = none →
      (SubTimeline.fromKeyframes (kf :: rest) dv gv de).frameIndexMap[0]? =
        some (-1) ∧
      (-1 : ℤ) < 0 ∧
      (∀ t : ℚ,
        (SubTimeline.fromKeyframes (kf :: rest) dv gv de).valueAt t 0 = none) := by
  intro Data dv gv de kf rest h0 hnone
  have step : fromKeyframesLoop dv gv (kf :: rest) [] [] de =
      fromKeyframesLoop dv gv rest [] [-1] de := by
    simp [fromKeyframesLoop, h0, hnone]
  have hmap : (SubTimeline.fromKeyframes (kf :: rest) dv gv de).frameIndexMap[0]? =
      some (-1) := by
    rw [fromKeyframes_map, step]
    obtain ⟨s, hs⟩ := fromKeyframesLoop_map_append dv gv rest [] [-1] de
    rw [hs]
    simp
  refine ⟨hmap, by norm_num, ?_⟩
  intro t
  simp [SubTimeline.valueAt, SubTimeline.getBoundingFrames, hmap]

/-- Witness for C10: the concrete single-keyframe list whose only keyframe is
at time 0 with no value — the recorded index-map entry is the underflowed
`0 - 1`. -/
theorem mina_c10_witness :
    (SubTimeline.fromKeyframes ([⟨none, none, 0⟩] : List (Keyframe (Option ℚ)))
        0 id Easing.Linear).frameIndexMap[0]? = some (-1) ∧
    (SubTimeline.fromKeyframes ([⟨none, none, 0⟩] : List (Keyframe (Option ℚ)))
        0 id Easing.Linear).valueAt (1/2) 0 = none :=
  ⟨(mina_c10 (Option ℚ) 0 id Easing.Linear ⟨none, none, 0⟩ [] rfl rfl).1,
   (mina_c10 (Option ℚ) 0 id Easing.Linear ⟨none, none, 0⟩ [] rfl rfl).2.2 (1/2)⟩

/-- C8: `MergedTimeline::update` applies each component timeline's `update` to
the target in list order — the last component is applied last, so when two
components write the same field at the same time the later component's value
is the one left in the target.  In particular, for `MergedTimeline::of([t1,
t2])` where `t2` always writes field `foo` to `f2(time)`, the target reports
`f2(time)` for `foo` after every `update`, whatever `t1` wrote. -/
theorem mina_c8 :
    (∀ (T Target : Type) (upd : T → Target → ℚ → Target) (tls : List T) (tl : T)
      (values : Target) (time : ℚ),
      MergedTimeline.update upd (tls ++ [tl]) values time =
        upd tl (MergedTimeline.update upd tls values time) time) ∧
    (∀ (Target : Type) (foo : Target → ℚ) (t1 t2 : Target → ℚ → Target)
      (f2 : ℚ → ℚ) (values : Target) (time : ℚ),
      (∀ v tm, foo (t2 v tm) = f2 tm) →
      foo (MergedTimeline.update (fun tl v tm => tl v tm) [t1, t2] values time) =
        f2 time) := by
  constructor
  · intro T Target upd tls tl values time
    simp [MergedTimeline.update, List.foldl_append]
  · intro Target foo t1 t2 f2 values time h
    simp [MergedTimeline.update, h]

/-- Witness for C8: with `t1` writing the constant 5 and `t2` writing
`9 + time`, the merged update at time 3 leaves `t2`'s value 12. -/
theorem mina_c8_witness :
    MergedTimeline.update (fun tl v tm => tl v tm)
      [fun _ _ => (5 : ℚ), fun _ tm => 9 + tm] 0 3 = 12 := by
  have h := mina_c8.2 ℚ (fun x => x) (fun _ _ => (5 : ℚ)) (fun _ tm => 9 + tm)
    (fun tm => 9 + tm) 0 3 (fun v tm => rfl)
  norm_num at h
  exact h

/-- C9 (counterexample): a timeline configuration with `duration_seconds = 0`
— a degenerate cycle duration `≤ 0` — is not rejected at construction time:
`create_timescale` succeeds and yields a `TimeScale` whose cycle duration
is 0. -/
theorem mina_c9_counterexample :
    ({ defaultEasing := Easing.Linear, delaySeconds := 0, durationSeconds := 0,
       keyframes := ([] : List (Keyframe (Option ℚ))), rpt := Repeat.None,
       reverse := false } :
      TimelineConfiguration (Option ℚ)).createTimescale.getCycleDuration = 0 ∧
    ¬ (0 : ℚ) > 0 :=
  ⟨rfl, by norm_num⟩

/-- C9 (amended): neither `TimeScale::new` nor
`TimelineConfiguration::create_timescale` validates the cycle duration;
construction stores any value — including `cycle_duration ≤ 0` — unchanged,
and the degenerate duration is only encountered later, in the divisions
performed by `get_position` during `update`. -/
theorem mina_c9_amended :
    (∀ (duration delay : ℚ) (r : Repeat) (rev : Bool),
      (TimeScale.new duration delay r rev).getCycleDuration = duration ∧
      (TimeScale.new duration delay r rev).getDelay = delay ∧
      (TimeScale.new duration delay r rev).rpt = r ∧
      (TimeScale.new duration delay r rev).reverse = rev) ∧
    (∀ (Data : Type) (cfg : TimelineConfiguration Data),
      cfg.createTimescale =
        TimeScale.new cfg.durationSeconds cfg.delaySeconds cfg.rpt cfg.reverse) :=
  ⟨fun _ _ _ _ => ⟨rfl, rfl, rfl, rfl⟩, fun _ _ => rfl⟩

/-- Helper for C5: in a strictly sorted list of non-negative times, at most
one entry is `≤ 0`. -/
theorem countP_nonpos_le_one (l : List ℚ) (hs : l.Pairwise (· < ·))
    (hnn : ∀ b ∈ l, 0 ≤ b) : l.countP (fun b => b ≤ 0) ≤ 1 := by
  induction l with
  | nil => simp
  | cons a l ih =>
    rw [List.countP_cons]
    obtain ⟨hrel, htail⟩ := List.pairwise_cons.mp hs
    by_cases ha : a ≤ 0
    · have ha0 : a = 0 := le_antisymm ha (hnn a (by simp))
      have hzero : l.countP (fun b => b ≤ 0) = 0 := by
        rw [List.countP_eq_zero]
        intro b hb
        have hab := hrel b hb
        simp only [decide_eq_true_eq]
        rw [ha0] at hab
        linarith
      simp [hzero, ha]
    · have hc := ih htail (fun b hb => hnn b (by simp [hb]))
      simp only [decide_eq_true_eq, ha, if_false]
      omega

/-- Helper for C5: for strictly sorted non-negative boundary times, the frame
index resolved for query time 0 is 0. -/
theorem findFrameIndex_zero (boundary : List ℚ)
    (hsort : List.Pairwise (· < ·) boundary)
    (hnn : ∀ b ∈ boundary, 0 ≤ b) :
    findFrameIndex boundary 0 = 0 := by
  unfold findFrameIndex
  have h := countP_nonpos_le_one boundary hsort hnn
  omega

/-- Helper for C5: at time 0 a valid timescale is either still delayed or at
the very start of its first forward pass. -/
theorem getPosition_zero (ts : TimeScale) (hdelay : 0 ≤ ts.delay)
    (hdur : 0 < ts.duration) :
    ts.getPosition 0 = TimeScalePosition.NotStarted ∨
    ts.getPosition 0 = TimeScalePosition.Active 0 ⟨false, false⟩ := by
  rcases lt_or_eq_of_le hdelay with h | h
  · left
    have hneg : (0:ℚ) - ts.delay < 0 := by linarith
    simp only [TimeScale.getPosition]
    rw [if_pos hneg]
  · right
    have hq : (0:ℚ) - ts.delay = 0 := by rw [← h]; ring
    have hnl : ¬ ((0:ℚ) - ts.delay < 0) := by rw [hq]; norm_num
    have hf : fmod 0 ts.duration = 0 := by
      unfold fmod
      rw [zero_div]
      simp
    have hct : ts.cycleTimeAndRepeat 0 = some (0, false) := by
      have hq0 : (0:ℚ) / ts.duration = 0 := zero_div _
      have hn1 : ¬ ((1:ℚ) ≤ 0) := by norm_num
      unfold TimeScale.cycleTimeAndRepeat
      cases hr : ts.rpt with
      | None =>
        have h1 : ¬ ((0:ℚ) > ts.duration) := by push_neg; linarith
        simp [h1]
      | Times k =>
        have h2 : ¬ ((0:ℚ) > ts.duration * (k + 1)) := by
          push_neg
          positivity
        simp [h2, hf, hq0, hn1]
      | Infinite =>
        simp [hf, hq0, hn1]
    have hratio : (0:ℚ) / ts.duration = 0 := zero_div _
    simp only [TimeScale.getPosition]
    rw [if_neg hnl, hq]
    simp only [hct]
    cases hrev : ts.reverse <;> simp [hrev, hratio]

/-- Helper for C5: `prepare_frame` at time 0 for a valid timescale resolves to
normalized time 0, frame index 0, with the start override enabled. -/
theorem prepareFrame_zero (boundary : List ℚ) (ts : TimeScale)
    (hb : boundary.isEmpty = false)
    (hsort : List.Pairwise (· < ·) boundary)
    (hnn : ∀ b ∈ boundary, 0 ≤ b)
    (hdelay : 0 ≤ ts.delay) (hdur : 0 < ts.duration) :
    prepareFrame 0 boundary ts = some (0, 0, true) := by
  have hidx := findFrameIndex_zero boundary hsort hnn
  rcases getPosition_zero ts hdelay hdur with h | h <;>
    simp [prepareFrame, h, hb, hidx]

/-- Helper for C5: interpolating at time 0 from an overridden start frame at
time 0 whose easing fixes the origin returns the override value. -/
theorem interpolate_from_zero (f0 g : SplitKeyframe) (cv : ℚ)
    (h0 : f0.normalizedTime = 0) (hg : 0 < g.normalizedTime)
    (he : ZeroFixed f0.easing) :
    interpolateValue { f0 with value := cv } g 0 = cv := by
  unfold ZeroFixed at he
  have hne : ¬ (g.normalizedTime - (0:ℚ) = 0) := by
    simpa using ne_of_gt hg
  simp only [interpolateValue, h0]
  rw [if_neg hne]
  simp [he, lerp]

/-- Helper for C5: on a well-formed track whose start value has been
overridden to `cv`, the three-argument `value_at` at normalized time 0 with
frame hint 0 and the override enabled yields `cv` (or no value at all, when
the hint resolves to nothing). -/
theorem blendableValueAt_zero (bst : BlendableSubTimeline) (cv : ℚ)
    (hvalid : ValidTrack bst.base) :
    (bst.overrideStartValue cv).valueAt 0 0 true = some cv ∨
    (bst.overrideStartValue cv).valueAt 0 0 true = none := by
  obtain ⟨hsort, hhead, hmap⟩ := hvalid
  unfold BlendableSubTimeline.overrideStartValue BlendableSubTimeline.valueAt
  cases hidx : bst.base.frameIndexMap[0]? with
  | none =>
    right
    simp [SubTimeline.valueAt, SubTimeline.getBoundingFrames, hidx]
  | some i =>
    obtain ⟨hile, hlen⟩ := hmap i hidx
    by_cases hneg : i < 0
    · right
      simp [SubTimeline.valueAt, SubTimeline.getBoundingFrames, hidx, hneg]
    · have h0i : 0 ≤ i := not_lt.mp hneg
      have hil : i.toNat < bst.base.frames.length := hlen h0i
      left
      have hi01 : i = 0 ∨ i = 1 := by omega
      cases hfr : bst.base.frames with
      | nil =>
        rw [hfr] at hil
        simp at hil
      | cons f0 rest =>
        obtain ⟨hf0t, hf0e⟩ := hhead f0 (by rw [hfr]; simp)
        rcases hi01 with rfl | rfl
        · cases rest with
          | nil =>
            have hover : overrideHead [f0] cv = [{ f0 with value := cv }] := rfl
            norm_num [SubTimeline.valueAt, SubTimeline.getBoundingFrames, hidx,
              hfr, hover, interpolateValue, hf0t]
          | cons g rest2 =>
            have hover : overrideHead (f0 :: g :: rest2) cv =
                { f0 with value := cv } :: g :: rest2 := rfl
            have hg : 0 < g.normalizedTime := by
              have hp := (List.pairwise_cons.mp (hfr ▸ hsort)).1 g (by simp)
              rw [hf0t] at hp
              exact hp
            have hIv := interpolate_from_zero f0 g cv hf0t hg hf0e
            rw [hf0t] at hIv
            norm_num [SubTimeline.valueAt, SubTimeline.getBoundingFrames, hidx,
              hfr, hover, hf0t, hIv]
        · cases rest with
          | nil =>
            rw [hfr] at hil
            simp at hil
          | cons g rest2 =>
            have hover : overrideHead (f0 :: g :: rest2) cv =
                { f0 with value := cv } :: g :: rest2 := rfl
            have hg : 0 < g.normalizedTime := by
              have hp := (List.pairwise_cons.mp (hfr ▸ hsort)).1 g (by simp)
              rw [hf0t] at hp
              exact hp
            have hIv := interpolate_from_zero f0 g cv hf0t hg hf0e
            norm_num [SubTimeline.valueAt, SubTimeline.getBoundingFrames, hidx,
              hfr, hover, hg, hIv]

/-- Helper for C5: updating a well-formed generated timeline at time 0, after
rebasing its start value to `cv`, writes back exactly `cv` (or touches nothing
when the timeline has no keyframes or the property resolves to no value). -/
theorem genUpdate_zero (tl : GenTimeline) (cv : ℚ) (h : ValidTimeline tl) :
    (tl.startWith cv).update cv 0 = cv := by
  obtain ⟨hdelay, hdur, hsort, hnn, htrack⟩ := h
  unfold GenTimeline.update GenTimeline.startWith
  cases hb : tl.boundaryTimes.isEmpty with
  | true => simp [prepareFrame, hb]
  | false =>
    have hpf := prepareFrame_zero tl.boundaryTimes tl.timescale hb hsort hnn
      hdelay hdur
    rcases blendableValueAt_zero tl.tValue cv htrack with hv | hv <;>
      simp [hpf, hv]

/-- Helper for C5: a merged timeline whose components are all well-formed and
have been rebased to the live value `cv` reproduces `cv` when updated at
time 0. -/
theorem mergedUpdate_zero (tls : List GenTimeline) (cv : ℚ)
    (h : ∀ tl ∈ tls, ValidTimeline tl) :
    MergedTimeline.update GenTimeline.update (mergedStartWith tls cv) cv 0 = cv := by
  induction tls with
  | nil => rfl
  | cons tl rest ih =>
    have h1 : (tl.startWith cv).update cv 0 = cv :=
      genUpdate_zero tl cv (h tl (by simp))
    simp only [mergedStartWith, List.map_cons, MergedTimeline.update,
      List.foldl_cons, h1]
    exact ih (fun t ht => h t (by simp [ht]))

/-- C5: for every state animator, a `set_state(s)` call with `s` different
from the current state and a well-formed timeline registered for `s` leaves
`current_values()` unchanged: the newly activated timeline's 0%-position
frames are first rebased to the live values via `start_with(current_values)`,
so the `update` at elapsed time 0 performed at the end of `set_state`
reproduces the pre-transition values exactly (no instantaneous jump).
Well-formedness asks for a non-negative delay, a positive cycle duration,
strictly sorted non-negative boundary times, and a track whose start frame
sits at time 0 with an origin-fixed easing — all guaranteed for timelines
built by the library from sorted keyframes with non-`Custom` easings. -/
theorem mina_c5 :
    ∀ (State : Type) [inst : DecidableEq State]
      (a : MappedTimelineAnimator State) (s : State) (tls : List GenTimeline),
      s ≠ a.currentState →
      a.timelines s = some tls →
      (∀ tl ∈ tls, ValidTimeline tl) →
      (a.setState s).currentValues = a.currentValues := by
  intro State inst a s tls hne hreg hvalid
  unfold MappedTimelineAnimator.setState
  rw [if_neg hne]
  unfold MappedTimelineAnimator.updateCurrentValues
    MappedTimelineAnimator.blendNextTimeline
  simp [hreg, mergedUpdate_zero tls a.currentValues hvalid]

/-- Witness for C5: the concrete animator at live value 7 keeps value 7
immediately after transitioning from state `false` to state `true`, although
the timeline registered for `true` nominally starts at 0. -/
theorem mina_c5_witness :
    (blendAnimator.setState true).currentValues = 7 := by
  have hf : blendTimeline.tValue.base.frames =
      [⟨Easing.Linear, 0, 0⟩, ⟨Easing.Linear, 1/2, 100⟩,
       ⟨Easing.Linear, 1, 100⟩] := by
    norm_num [blendTimeline, blendKeyframes, SubTimeline.fromKeyframes,
      fromKeyframesLoop, SplitKeyframe.withTime]
  have hm : blendTimeline.tValue.base.frameIndexMap = [1] := by
    norm_num [blendTimeline, blendKeyframes, SubTimeline.fromKeyframes,
      fromKeyframesLoop]
  have hval : ∀ tl ∈ [blendTimeline], ValidTimeline tl := by
    intro tl htl
    rw [List.mem_singleton] at htl
    subst htl
    refine ⟨by norm_num [blendTimeline, TimeScale.new],
      by norm_num [blendTimeline, TimeScale.new], ?_, ?_, ?_, ?_, ?_⟩
    · show List.Pairwise (fun a b => a < b) blendTimeline.boundaryTimes
      norm_num [blendTimeline]
    · intro b hb
      norm_num [blendTimeline] at hb
      norm_num [hb]
    · rw [hf]
      norm_num [List.pairwise_cons]
    · intro f hhead
      rw [hf] at hhead
      simp at hhead
      rw [← hhead]
      exact ⟨rfl, rfl⟩
    · intro i hi
      rw [hm] at hi
      simp at hi
      subst hi
      refine ⟨by norm_num, fun _ => ?_⟩
      rw [hf]
      norm_num
  have h := mina_c5 Bool blendAnimator true [blendTimeline]
    (by simp [blendAnimator]) (by simp [blendAnimator]) hval
  rw [h]
  rfl
